import Mathlib

/-!
Verification of the recallist-server core: the Item State Engine
(src/lambda/db_service/dynamo.py and src/lambda/recallist.py) and the
Identity Resolver (src/lambda_authorizer/main.py), shallowly embedded.

The DynamoDB items table is modelled as a list of records; each DynamoDB
call is a Lean function over that list.  Conditional operations
(conditional put / update / delete) are modelled atomically, exactly as
DynamoDB guarantees them.  A transient backing-store failure (throttling,
service unavailable, ...) is modelled by a `fault` flag on each call: when
the flag is set the call raises (returns `DbError.transient`) and the
store is unchanged.
-/

/-- Python whitespace as it occurs in this service's inputs (the
characters `str.strip()` / `str.split()` treat as separators). -/
def isSpaceChar (c : Char) : Bool :=
  c == ' ' || c == '\t' || c == '\n' || c == '\r'

/-- ASCII lowercasing of one character, as Python `str.lower()` acts on
the ASCII range. -/
def lowerChar (c : Char) : Char :=
  if 65 ≤ c.toNat && c.toNat ≤ 90 then Char.ofNat (c.toNat + 32) else c

/-- Python `str.strip()`: drop leading and trailing whitespace. -/
def pyStrip (s : String) : String :=
  ⟨((s.data.dropWhile isSpaceChar).reverse.dropWhile isSpaceChar).reverse⟩

/-- Python `str.lower()`. -/
def pyLower (s : String) : String :=
  ⟨s.data.map lowerChar⟩

/-- Python `str.split()` with no argument: split on whitespace runs,
dropping empty fragments. -/
def pySplit (s : String) : List String :=
  ((s.data.splitOnP isSpaceChar).map (fun l => (⟨l⟩ : String))).filter
    (fun t => t ≠ "")

/-- Python `str.startswith(pre)`. -/
def pyStartsWith (s pre : String) : Bool :=
  pre.data.isPrefixOf s.data

namespace Recallist

/-- An item record as stored in the DynamoDB items table
(`put_item_if_absent` writes exactly these attributes; `mark_resolved`
adds `resolutionDate`). -/
structure Record where
  user_id : String
  item : String
  display_item : String
  status : String
  createdDate : String
  resolutionDate : Option String := none
  deriving DecidableEq, Repr

/-- Helper `_normalize_item_key` from dynamo.py: `(item or "").strip().lower()`. -/
def normalizeItemKey (item : String) : String :=
  pyLower (pyStrip item)

/-- DynamoDB error outcomes surfaced to the Python layer as exceptions:
`ConditionalCheckFailedException`, or any transient service failure. -/
inductive DbError where
  | conditionalCheckFailed
  | transient
  deriving DecidableEq, Repr

/-- Whether a record has the given full composite key (user_id, item). -/
def keyMatch (user key : String) (r : Record) : Bool :=
  r.user_id == user && r.item == key

/-- Whether the table holds a record with the given composite key. -/
def keyPresent (user key : String) (s : List Record) : Bool :=
  s.any (keyMatch user key)

/-- DynamoDB `put_item` with `ConditionExpression=Attr("item").not_exists()`:
a single atomic conditional put.  The condition is evaluated against the
record stored under the same composite key; it fails exactly when such a
record exists (a stored record always carries the `item` attribute). -/
def dynamoPutIfAbsent (fault : Bool) (rec : Record) (s : List Record) :
    Except DbError (List Record) :=
  if fault then .error .transient
  else if keyPresent rec.user_id rec.item s then .error .conditionalCheckFailed
  else .ok (s ++ [rec])

/-- DynamoDB `delete_item` with `ConditionExpression=Attr("item").exists()`:
a single atomic conditional delete, failing when the key is absent. -/
def dynamoDeleteIfExists (fault : Bool) (user key : String) (s : List Record) :
    Except DbError (List Record) :=
  if fault then .error .transient
  else if keyPresent user key s then
    .ok (s.filter (fun r => !(keyMatch user key r)))
  else .error .conditionalCheckFailed

/-- The record update performed by `mark_resolved`'s `UpdateExpression`:
`SET #s = :resolved, resolutionDate = :rd`. -/
def resolveRecord (rd : String) (r : Record) : Record :=
  { r with status := "RESOLVED", resolutionDate := some rd }

/-- Pointwise effect of the conditional resolve-update on the table: the
record under the addressed composite key is updated, all others are
untouched. -/
def resolveUpd (user key rd : String) (x : Record) : Record :=
  if keyMatch user key x then resolveRecord rd x else x

/-- DynamoDB `update_item` with `ConditionExpression=Attr("item").exists()`
and `ReturnValues="ALL_NEW"`: a single atomic conditional update keyed on
existence, returning the updated record. -/
def dynamoUpdateResolved (fault : Bool) (user key rd : String) (s : List Record) :
    Except DbError (Record × List Record) :=
  if fault then .error .transient
  else match s.find? (keyMatch user key) with
    | some r => .ok (resolveRecord rd r, s.map (resolveUpd user key rd))
    | none => .error .conditionalCheckFailed

/-- Function `get_item` from dynamo.py: normalized point lookup by full composite key. -/
def get_item (user itemText : String) (s : List Record) : Option Record :=
  s.find? (keyMatch user (normalizeItemKey itemText))

/-- The user's partition: what a DynamoDB `query` with
`KeyConditionExpression=Key("user_id").eq(user_id)` ranges over. -/
def userPartition (user : String) (s : List Record) : List Record :=
  s.filter (fun r => r.user_id == user)

/-- One page of a paginated query over the user's partition: DynamoDB scans
up to `pageSize` records of the partition starting at the continuation
point, applies the `FilterExpression` `p` to the scanned page, and reports
a `LastEvaluatedKey` (here the next start offset) iff the scan stopped
before the end of the partition. -/
def queryPage (p : Record → Bool) (part : List Record) (pageSize start : Nat) :
    List Record × Option Nat :=
  let page := (part.drop start).take pageSize
  let next := if start + pageSize < part.length then some (start + pageSize) else none
  (page.filter p, next)

/-- The pagination loop of `list_items` / `list_unresolved_items`: query,
accumulate, and re-query with `ExclusiveStartKey` while a
`LastEvaluatedKey` is present.  Fuel bounds the recursion; the callers
supply enough fuel for the loop to run to completion. -/
def queryLoop (p : Record → Bool) (part : List Record) (pageSize : Nat) :
    Nat → Nat → List Record
  | _, 0 => []
  | start, fuel + 1 =>
      match queryPage p part pageSize start with
      | (page, none) => page
      | (page, some s) => page ++ queryLoop p part pageSize s fuel

/-- Function `list_items` from dynamo.py: all records of the user's partition,
paginated to completeness. -/
def list_items (user : String) (pageSize : Nat) (s : List Record) : List Record :=
  queryLoop (fun _ => true) (userPartition user s) pageSize 0 (s.length + 1)

/-- Function `list_unresolved_items` from dynamo.py: the user's partition filtered by
`Attr("status").ne("RESOLVED")`, paginated to completeness. -/
def list_unresolved_items (user : String) (pageSize : Nat) (s : List Record) :
    List Record :=
  queryLoop (fun r => !(r.status == "RESOLVED")) (userPartition user s) pageSize 0
    (s.length + 1)

/-- Function `get_random_unresolved` from dynamo.py: `random.choice` over the
unresolved list, modelled by an externally drawn index `k` (uniform over
`[0, len)` when the list is non-empty; `k % len` is the selected position). -/
def get_random_unresolved (k : Nat) (user : String) (pageSize : Nat)
    (s : List Record) : Option Record :=
  let items := list_unresolved_items user pageSize s
  if items.isEmpty then none
  else items[k % items.length]?

/-- Function `put_item_if_absent` from dynamo.py: builds the new record (normalized
key, original casing kept in `display_item`, status `NEW`, no
`resolutionDate`) and issues one conditional put. -/
def put_item_if_absent (fault : Bool) (user itemText created : String)
    (s : List Record) : Except DbError (Record × List Record) :=
  let new_item : Record :=
    { user_id := user, item := normalizeItemKey itemText, display_item := itemText,
      status := "NEW", createdDate := created, resolutionDate := none }
  (dynamoPutIfAbsent fault new_item s).map (fun s2 => (new_item, s2))

/-- Function `delete_item` from dynamo.py: one conditional delete inside a
`try/except Exception` that turns ANY exception — the conditional-check
failure as well as a transient service failure — into `False`. -/
def delete_item (fault : Bool) (user itemText : String) (s : List Record) :
    Bool × List Record :=
  match dynamoDeleteIfExists fault user (normalizeItemKey itemText) s with
  | .ok s2 => (true, s2)
  | .error _ => (false, s)

/-- Function `mark_resolved` from dynamo.py: one conditional update inside a
`try/except Exception` that turns ANY exception into `None`. -/
def mark_resolved (fault : Bool) (user itemText rd : String) (s : List Record) :
    Option Record × List Record :=
  match dynamoUpdateResolved fault user (normalizeItemKey itemText) rd s with
  | .ok (r, s2) => (some r, s2)
  | .error _ => (none, s)

/-- The `Item` pydantic model surfaced by the service layer. -/
structure ItemModel where
  item : String
  status : String
  createdDate : String
  resolutionDate : Option String
  deriving DecidableEq, Repr

/-- Helper `_to_item_model` from recallist.py: `display_item or item` (Python `or`
falls back when `display_item` is missing or empty). -/
def toItemModel (r : Record) : ItemModel :=
  { item := if r.display_item == "" then r.item else r.display_item,
    status := r.status, createdDate := r.createdDate,
    resolutionDate := r.resolutionDate }

/-- Tagged semantic outcomes of the service layer (recallist.py maps these
to HTTP 2xx / 404 / 409 / 400 / 500 respectively). -/
inductive Outcome where
  | okItem (i : ItemModel)
  | okNoContent
  | notFound
  | conflict
  | validationError
  | internalError
  deriving DecidableEq, Repr

/-- Function `svc_create_item` from recallist.py: empty-after-trim text is a
validation error; `ConditionalCheckFailedException` maps to Conflict; any
other `ClientError` maps to Internal. -/
def svc_create_item (fault : Bool) (user itemText created : String)
    (s : List Record) : Outcome × List Record :=
  if pyStrip itemText == "" then (.validationError, s)
  else
    match put_item_if_absent fault user itemText created s with
    | .ok (r, s2) => (.okItem (toItemModel r), s2)
    | .error .conditionalCheckFailed => (.conflict, s)
    | .error .transient => (.internalError, s)

/-- Function `svc_delete_item` from recallist.py: `False` from `delete_item` maps to
NotFound (404). -/
def svc_delete_item (fault : Bool) (user itemText : String) (s : List Record) :
    Outcome × List Record :=
  match delete_item fault user itemText s with
  | (true, s2) => (.okNoContent, s2)
  | (false, s2) => (.notFound, s2)

/-- Function `svc_resolve_item` from recallist.py: `None` from `mark_resolved` maps
to NotFound (404). -/
def svc_resolve_item (fault : Bool) (user itemText rd : String)
    (s : List Record) : Outcome × List Record :=
  match mark_resolved fault user itemText rd s with
  | (some r, s2) => (.okItem (toItemModel r), s2)
  | (none, s2) => (.notFound, s2)

/-- Function `svc_get_item` from recallist.py. -/
def svc_get_item (user itemText : String) (s : List Record) : Outcome :=
  match get_item user itemText s with
  | some r => .okItem (toItemModel r)
  | none => .notFound

/-- The mutating operations of the Item State Engine, each tagged with
whether the backing store fails transiently during its single write. -/
inductive Op where
  | create (fault : Bool) (user itemText created : String)
  | resolve (fault : Bool) (user itemText rd : String)
  | delete (fault : Bool) (user itemText : String)

/-- Effect of one service-layer operation on the store. -/
def applyOp (op : Op) (s : List Record) : List Record :=
  match op with
  | .create f u t c => (svc_create_item f u t c s).2
  | .resolve f u t rd => (svc_resolve_item f u t rd s).2
  | .delete f u t => (svc_delete_item f u t s).2

/-- Run a sequence of operations from a starting store. -/
def runOps (ops : List Op) (s : List Record) : List Record :=
  ops.foldl (fun acc op => applyOp op acc) s

/-- Stores reachable from the empty table by service-layer operations. -/
def Reachable (s : List Record) : Prop :=
  ∃ ops, runOps ops [] = s

/-- Well-formedness of a single record: `resolutionDate` is absent exactly
on status `NEW`, present exactly on status `RESOLVED`. -/
def RecordWF (r : Record) : Prop :=
  (r.status = "NEW" ∧ r.resolutionDate = none) ∨
  (r.status = "RESOLVED" ∧ r.resolutionDate ≠ none)

/-- Well-formedness of the table: every record is well-formed and
composite keys (user_id, item) are pairwise distinct. -/
def StoreWF (s : List Record) : Prop :=
  (∀ r ∈ s, RecordWF r) ∧
  s.Pairwise (fun a b => ¬(a.user_id = b.user_id ∧ a.item = b.item))

/-- A sample stored record, used for concrete instantiations. -/
def milkRec : Record :=
  { user_id := "u1", item := "milk", display_item := "Milk",
    status := "NEW", createdDate := "2026-01-01T00:00:00+00:00",
    resolutionDate := none }

/-- A sample record owned by a second user with a colliding normalized
key, used for concrete instantiations. -/
def milkRecOther : Record :=
  { user_id := "u2", item := "milk", display_item := "MILK",
    status := "RESOLVED", createdDate := "2026-01-02T00:00:00+00:00",
    resolutionDate := some "2026-01-03T00:00:00+00:00" }

end Recallist

namespace Authz

/-!
Identity Resolver: src/lambda_authorizer/main.py.  The JWT payload decoding
(`_decode_jwt_no_verify`, base64url + JSON via standard libraries) is
abstracted as a function parameter `decodeJwt`; a payload carries the two
claims the handler inspects.  A transient failure of the API-keys table
scan is modelled by the `scanFault` flag (the `except` branch sets
`user_id = None`).
-/

/-- The two claims `handler` reads from a decoded JWT payload; `none`
models a missing claim. -/
structure JwtPayload where
  sub : Option String
  iss : Option String
  deriving DecidableEq, Repr

/-- A row of the API-keys table as seen through
`ProjectionExpression="user_id"`; `none` models a row without a `user_id`
attribute. -/
structure ApiKeyRecord where
  api_key : String
  user_id : Option String
  deriving DecidableEq, Repr

/-- The authorizer's result: an IAM Allow policy carrying a principal id
and a `user_id` context value, or a Deny policy.  No error constructor
exists: the handler never surfaces an error to the caller. -/
inductive AuthResult where
  | allow (principalId userId : String)
  | deny
  deriving DecidableEq, Repr

/-- Helper `_parse_bearer_token`: exactly two whitespace-separated parts, the
first being `bearer` case-insensitively. -/
def parseBearerToken (authHeader : String) : Option String :=
  if authHeader == "" then none
  else
    match pySplit authHeader with
    | [p0, p1] => if pyLower p0 == "bearer" then some p1 else none
    | _ => none

/-- Python truthiness of an optional string claim: present and non-empty. -/
def truthy : Option String → Bool
  | some s => s != ""
  | none => false

/-- The issuer prefix built from `USER_POOL_ID`. -/
def cognitoIssuerBase (pid : String) : String :=
  "https://cognito-idp.us-east-1.amazonaws.com/" ++ pid

/-- The issuer allow-list check: when `USER_POOL_ID` is unset or empty
(Python falsiness) no check is performed; otherwise `iss` must start with
the Cognito issuer URL for that pool. -/
def issuerOk (userPoolId : Option String) (payload : JwtPayload) : Bool :=
  match userPoolId with
  | none => true
  | some pid =>
      if pid == "" then true
      else pyStartsWith (payload.iss.getD "") (cognitoIssuerBase pid)

/-- Step 1 of `handler`: the Cognito JWT path.  Returns the Allow it
produces, or `none` when this path falls through to the API-key path
(no/invalid bearer scheme, undecodable token, missing or empty `sub` or
`iss`, or issuer mismatch). -/
def tokenPath (decodeJwt : String → Option JwtPayload)
    (userPoolId : Option String) (auth : String) : Option AuthResult :=
  match (if auth == "" then none else parseBearerToken auth) with
  | none => none
  | some t =>
      match decodeJwt t with
      | none => none
      | some payload =>
          if truthy payload.sub && truthy payload.iss && issuerOk userPoolId payload
          then some (.allow "cognitoUser" (payload.sub.getD ""))
          else none

/-- Step 2 of `handler`: the API-keys table scan with
`FilterExpression  api_key = :v` where `:v` is the WHOLE raw
Authorization header value; `items[0].get("user_id")` on the first match;
any exception is swallowed into `None`. -/
def apiKeyLookup (apiKeys : List ApiKeyRecord) (scanFault : Bool)
    (auth : String) : Option String :=
  if scanFault then none
  else
    match apiKeys.find? (fun k => k.api_key == auth) with
    | some rec => rec.user_id
    | none => none

/-- Function `handler` from src/lambda_authorizer/main.py: try the Cognito JWT path
first; otherwise, when an Authorization header is present, look its full
value up as an API key; a truthy `user_id` yields Allow; everything else
is Deny. -/
def handler (decodeJwt : String → Option JwtPayload)
    (userPoolId : Option String) (apiKeys : List ApiKeyRecord)
    (scanFault : Bool) (authHeader : Option String) : AuthResult :=
  let auth := authHeader.getD ""
  match tokenPath decodeJwt userPoolId auth with
  | some r => r
  | none =>
      if auth != "" then
        match apiKeyLookup apiKeys scanFault auth with
        | some uid => if uid != "" then .allow "apiKeyUser" uid else .deny
        | none => .deny
      else .deny

end Authz

namespace Recallist

/-- The pagination loop of the list operations, run with enough fuel,
returns exactly the filtered remainder of the partition: no page is lost
and no record is duplicated. -/
theorem queryLoop_eq (p : Record → Bool) (part : List Record) (pageSize : Nat)
    (hp : 0 < pageSize) :
    ∀ fuel start, part.length ≤ start + fuel * pageSize →
      queryLoop p part pageSize start fuel = (part.drop start).filter p := by
  intro fuel
  induction fuel with
  | zero =>
      intro start h
      have hs : part.length ≤ start := by simpa using h
      simp [queryLoop, List.drop_eq_nil_of_le hs]
  | succ n ih =>
      intro start h
      by_cases hc : start + pageSize < part.length
      · have hfuel : part.length ≤ (start + pageSize) + n * pageSize := by
          rw [Nat.succ_mul] at h
          omega
        simp only [queryLoop, queryPage, hc, if_pos]
        rw [ih (start + pageSize) hfuel, ← List.drop_drop pageSize start part,
          ← List.filter_append, List.take_append_drop]
      · have hlen : (part.drop start).length ≤ pageSize := by
          rw [List.length_drop]
          omega
        simp only [queryLoop, queryPage, hc, if_neg, ite_false]
        rw [List.take_of_length_le hlen]

/-- Enough fuel is supplied by the list operations for the pagination loop
to terminate on its own. -/
theorem partition_fuel (user : String) (pageSize : Nat) (hp : 0 < pageSize)
    (s : List Record) :
    (userPartition user s).length ≤ 0 + (s.length + 1) * pageSize := by
  have h1 : (userPartition user s).length ≤ s.length := List.length_filter_le _ _
  have h2 : s.length + 1 ≤ (s.length + 1) * pageSize :=
    Nat.le_mul_of_pos_right (s.length + 1) hp
  omega

/-- Paginated to completeness, `list_items` returns exactly the user's
partition. -/
theorem list_items_eq (user : String) (pageSize : Nat) (hp : 0 < pageSize)
    (s : List Record) :
    list_items user pageSize s = userPartition user s := by
  rw [list_items, queryLoop_eq _ _ _ hp _ _ (partition_fuel user pageSize hp s)]
  simp [List.filter_true]

/-- Paginated to completeness, `list_unresolved_items` returns exactly
the user's records with status other than RESOLVED. -/
theorem list_unresolved_items_eq (user : String) (pageSize : Nat)
    (hp : 0 < pageSize) (s : List Record) :
    list_unresolved_items user pageSize s =
      (userPartition user s).filter (fun r => !(r.status == "RESOLVED")) := by
  rw [list_unresolved_items,
    queryLoop_eq _ _ _ hp _ _ (partition_fuel user pageSize hp s)]
  simp

/-- Predicate `keyPresent` is false exactly when no record carries the key. -/
theorem keyPresent_eq_false_iff (user key : String) (s : List Record) :
    keyPresent user key s = false ↔ ∀ r ∈ s, keyMatch user key r = false := by
  rw [keyPresent]
  simp [List.any_eq_true]

/-- The resolve update leaves composite keys unchanged. -/
theorem keyMatch_resolveUpd (user key u2 k2 rd : String) (x : Record) :
    keyMatch u2 k2 (resolveUpd user key rd x) = keyMatch u2 k2 x := by
  rw [resolveUpd]
  by_cases h : keyMatch user key x = true
  · simp only [h, if_pos]
    rfl
  · simp only [h, if_neg]
    simp

/-- The resolve update leaves the owner unchanged. -/
theorem user_id_resolveUpd (user key rd : String) (x : Record) :
    (resolveUpd user key rd x).user_id = x.user_id := by
  rw [resolveUpd]
  by_cases h : keyMatch user key x = true <;> simp [h, resolveRecord]

/-- The resolve update leaves the normalized key unchanged. -/
theorem item_resolveUpd (user key rd : String) (x : Record) :
    (resolveUpd user key rd x).item = x.item := by
  rw [resolveUpd]
  by_cases h : keyMatch user key x = true <;> simp [h, resolveRecord]

/-- A `find?` skips a block in which no element satisfies the predicate. -/
theorem find?_append_of_none {α : Type} {p : α → Bool} {l1 : List α}
    (h : ∀ x ∈ l1, p x = false) (l2 : List α) :
    (l1 ++ l2).find? p = l2.find? p := by
  induction l1 with
  | nil => rfl
  | cons a t ih =>
      have ha : ¬ p a = true := by
        simp [h a (List.mem_cons_self a t)]
      rw [List.cons_append, List.find?_cons_of_neg _ ha]
      exact ih (fun x hx => h x (List.mem_cons_of_mem a hx))

/-- Claim C1: a second create of an already-present normalized key for the same
user returns the Conflict outcome; the single conditional put fails its
condition check without mutating the store, so the existing record keeps
its display text, status, created_at and resolved_at. -/
theorem create_conflict_preserves_existing
    (user itemText created : String) (s : List Record)
    (hne : pyStrip itemText ≠ "")
    (hex : keyPresent user (normalizeItemKey itemText) s = true) :
    svc_create_item false user itemText created s = (.conflict, s) ∧
    put_item_if_absent false user itemText created s =
      .error .conditionalCheckFailed := by
  have hput : put_item_if_absent false user itemText created s =
      .error .conditionalCheckFailed := by
    simp [put_item_if_absent, dynamoPutIfAbsent, hex, Except.map]
  refine ⟨?_, hput⟩
  simp [svc_create_item, hput, hne]

/-- Claim C1 witness: creating "MILK" over the stored "Milk" record conflicts
and leaves the store untouched. -/
theorem create_conflict_preserves_existing_inst :
    svc_create_item false "u1" "MILK" "d1" [milkRec] = (.conflict, [milkRec]) ∧
    put_item_if_absent false "u1" "MILK" "d1" [milkRec] =
      .error .conditionalCheckFailed :=
  create_conflict_preserves_existing "u1" "MILK" "d1" [milkRec]
    (by decide) (by decide)

/-- Claim C3: creating text `T` (non-empty after trimming, key not yet taken)
and then fetching by any case variant `V` (any text with the same
normalized key) returns the very record just created, whose stored and
returned display text is `T` exactly as submitted. -/
theorem create_then_fetch_any_case_variant
    (user T V created : String) (s : List Record)
    (hne : pyStrip T ≠ "")
    (habs : keyPresent user (normalizeItemKey T) s = false)
    (hvar : normalizeItemKey V = normalizeItemKey T) :
    ∃ r : Record,
      svc_create_item false user T created s = (.okItem (toItemModel r), s ++ [r]) ∧
      get_item user V (s ++ [r]) = some r ∧
      r.display_item = T ∧ (toItemModel r).item = T := by
  have hT : T ≠ "" := by
    intro hT0
    apply hne
    rw [hT0]
    decide
  use { user_id := user, item := normalizeItemKey T, display_item := T,
        status := "NEW", createdDate := created, resolutionDate := none }
  refine ⟨?_, ?_, rfl, ?_⟩
  · simp [svc_create_item, put_item_if_absent, dynamoPutIfAbsent, habs, hne,
      Except.map]
  · rw [get_item, hvar]
    rw [find?_append_of_none ((keyPresent_eq_false_iff _ _ _).mp habs)]
    rw [List.find?_cons_of_pos]
    simp [keyMatch]
  · simp [toItemModel, hT]

/-- Claim C3 witness: create " Milk " then fetch "MILK  " returns the created
record with display text " Milk ". -/
theorem create_then_fetch_any_case_variant_inst :
    ∃ r : Record,
      svc_create_item false "u1" " Milk " "d0" [] = (.okItem (toItemModel r), [] ++ [r]) ∧
      get_item "u1" "MILK  " ([] ++ [r]) = some r ∧
      r.display_item = " Milk " ∧ (toItemModel r).item = " Milk " :=
  create_then_fetch_any_case_variant "u1" " Milk " "MILK  " "d0" []
    (by decide) (by decide) (by decide)

/-- Claim C5: with a healthy backing store, delete of an absent key yields the
NotFound outcome and no change; delete of a present key is the single
conditional delete removing exactly that record — a subsequent fetch by
any case variant of the key finds nothing, every other record survives,
and nothing new appears. -/
theorem delete_item_semantics (user itemText : String) (s : List Record) :
    (keyPresent user (normalizeItemKey itemText) s = false →
      svc_delete_item false user itemText s = (.notFound, s)) ∧
    (keyPresent user (normalizeItemKey itemText) s = true →
      svc_delete_item false user itemText s =
        (.okNoContent,
         s.filter (fun r => !(keyMatch user (normalizeItemKey itemText) r))) ∧
      (∀ V, normalizeItemKey V = normalizeItemKey itemText →
        get_item user V (svc_delete_item false user itemText s).2 = none) ∧
      (∀ r ∈ s, keyMatch user (normalizeItemKey itemText) r = false →
        r ∈ (svc_delete_item false user itemText s).2) ∧
      (∀ r ∈ (svc_delete_item false user itemText s).2, r ∈ s)) := by
  constructor
  · intro habs
    simp [svc_delete_item, delete_item, dynamoDeleteIfExists, habs]
  · intro hex
    have hdel : svc_delete_item false user itemText s =
        (.okNoContent,
         s.filter (fun r => !(keyMatch user (normalizeItemKey itemText) r))) := by
      simp [svc_delete_item, delete_item, dynamoDeleteIfExists, hex]
    refine ⟨hdel, ?_, ?_, ?_⟩
    · intro V hvar
      rw [hdel, get_item, hvar, List.find?_eq_none]
      intro x hx
      rw [List.mem_filter] at hx
      simp only [Bool.not_eq_true'] at hx
      simp [hx.2]
    · intro r hr hmiss
      rw [hdel]
      simp only [List.mem_filter]
      exact ⟨hr, by simp [hmiss]⟩
    · intro r hr
      rw [hdel] at hr
      exact (List.mem_filter.mp hr).1

/-- Claim C5 witness: deleting the absent key "bread" reports NotFound; deleting
"Milk" removes the record so that fetching " MILK" finds nothing. -/
theorem delete_item_semantics_inst :
    svc_delete_item false "u1" "bread" [milkRec] = (.notFound, [milkRec]) ∧
    svc_delete_item false "u1" "Milk" [milkRec] =
      (.okNoContent,
       [milkRec].filter (fun r => !(keyMatch "u1" (normalizeItemKey "Milk") r))) ∧
    get_item "u1" " MILK" (svc_delete_item false "u1" "Milk" [milkRec]).2 = none :=
  have h1 := (delete_item_semantics "u1" "bread" [milkRec]).1 (by decide)
  have h2 := (delete_item_semantics "u1" "Milk" [milkRec]).2 (by decide)
  ⟨h1, h2.1, h2.2.1 " MILK" (by decide)⟩

/-- The conditional resolve-update commutes with `find?` on the same key:
after the update, the record found under the key is the updated one. -/
theorem find?_map_resolveUpd (user key u2 k2 rd : String) (s : List Record) :
    (s.map (resolveUpd user key rd)).find? (keyMatch u2 k2) =
      (s.find? (keyMatch u2 k2)).map (resolveUpd user key rd) := by
  rw [List.find?_map]
  have hpred : (keyMatch u2 k2 ∘ resolveUpd user key rd) = keyMatch u2 k2 := by
    funext x
    exact keyMatch_resolveUpd user key u2 k2 rd x
  rw [hpred]

/-- Claim C4: with a healthy backing store, resolve of an absent key yields the
NotFound outcome and no change; resolve of a present record is the single
conditional update setting status RESOLVED and resolved_at to the supplied
timestamp, returning the updated record; a second resolve keeps the status
RESOLVED but re-stamps resolved_at with the new timestamp. -/
theorem resolve_semantics (user itemText rd rd2 : String) (s : List Record) :
    (s.find? (keyMatch user (normalizeItemKey itemText)) = none →
      svc_resolve_item false user itemText rd s = (.notFound, s)) ∧
    (∀ r, s.find? (keyMatch user (normalizeItemKey itemText)) = some r →
      svc_resolve_item false user itemText rd s =
        (.okItem (toItemModel (resolveRecord rd r)),
         s.map (resolveUpd user (normalizeItemKey itemText) rd)) ∧
      (resolveRecord rd r).status = "RESOLVED" ∧
      (resolveRecord rd r).resolutionDate = some rd ∧
      (mark_resolved false user itemText rd2
          (svc_resolve_item false user itemText rd s).2).1 =
        some (resolveRecord rd2 (resolveRecord rd r)) ∧
      (resolveRecord rd2 (resolveRecord rd r)).status = "RESOLVED" ∧
      (resolveRecord rd2 (resolveRecord rd r)).resolutionDate = some rd2) := by
  constructor
  · intro habs
    simp [svc_resolve_item, mark_resolved, dynamoUpdateResolved, habs]
  · intro r hfind
    have hres : svc_resolve_item false user itemText rd s =
        (.okItem (toItemModel (resolveRecord rd r)),
         s.map (resolveUpd user (normalizeItemKey itemText) rd)) := by
      simp [svc_resolve_item, mark_resolved, dynamoUpdateResolved, hfind]
    have hkey : keyMatch user (normalizeItemKey itemText) r = true :=
      List.find?_some hfind
    have hfind2 : (s.map (resolveUpd user (normalizeItemKey itemText) rd)).find?
        (keyMatch user (normalizeItemKey itemText)) =
        some (resolveRecord rd r) := by
      rw [find?_map_resolveUpd, hfind, Option.map_some']
      rw [resolveUpd, if_pos hkey]
    refine ⟨hres, rfl, rfl, ?_, rfl, rfl⟩
    rw [hres]
    simp [mark_resolved, dynamoUpdateResolved, hfind2]

/-- Claim C4 witness: resolving the absent "bread" reports NotFound; resolving
"MILK " updates the "Milk" record to RESOLVED with the first timestamp,
and a second resolve re-stamps it with the second timestamp. -/
theorem resolve_semantics_inst :
    svc_resolve_item false "u1" "bread" "d8" [milkRec] = (.notFound, [milkRec]) ∧
    svc_resolve_item false "u1" "MILK " "d8" [milkRec] =
      (.okItem (toItemModel (resolveRecord "d8" milkRec)),
       [milkRec].map (resolveUpd "u1" (normalizeItemKey "MILK ") "d8")) ∧
    (mark_resolved false "u1" "MILK " "d9"
        (svc_resolve_item false "u1" "MILK " "d8" [milkRec]).2).1 =
      some (resolveRecord "d9" (resolveRecord "d8" milkRec)) ∧
    (resolveRecord "d9" (resolveRecord "d8" milkRec)).status = "RESOLVED" ∧
    (resolveRecord "d9" (resolveRecord "d8" milkRec)).resolutionDate = some "d9" :=
  have h1 := (resolve_semantics "u1" "bread" "d8" "d9" [milkRec]).1 (by decide)
  have h2 := (resolve_semantics "u1" "MILK " "d8" "d9" [milkRec]).2 milkRec (by decide)
  ⟨h1, h2.1, h2.2.2.2.1, h2.2.2.2.2.1, h2.2.2.2.2.2⟩

/-- Claim C2 (code bug): `delete_item` and `mark_resolved` wrap their single
conditional call in a blanket `except Exception` returning `False`/`None`,
so a transient backing-store failure on an EXISTING item produces exactly
the NotFound outcome of an absent item — the caller cannot distinguish the
two, although `svc_create_item` does make that distinction (transient
failure maps to Internal there). -/
theorem transient_failure_indistinguishable_from_notfound :
    keyPresent "u1" "milk" [milkRec] = true ∧
    svc_delete_item true "u1" "milk" [milkRec] = (.notFound, [milkRec]) ∧
    svc_resolve_item true "u1" "milk" "d9" [milkRec] = (.notFound, [milkRec]) ∧
    svc_delete_item false "u1" "bread" [milkRec] = (.notFound, [milkRec]) ∧
    svc_resolve_item false "u1" "bread" "d9" [milkRec] = (.notFound, [milkRec]) ∧
    svc_create_item true "u1" "Bread" "d0" [milkRec] =
      (.internalError, [milkRec]) := by
  decide

/-- Uniformity backbone: among the positions of a list, exactly `count e`
many hold the element `e`. -/
theorem count_eq_length_index_filter {α : Type} [DecidableEq α] (l : List α) (e : α) :
    ((List.range l.length).filter (fun j => decide (l[j]? = some e))).length =
      l.count e := by
  induction l with
  | nil => simp
  | cons a t ih =>
      rw [List.length_cons, List.range_succ_eq_map, List.filter_cons]
      simp only [List.filter_map, Function.comp_def, List.getElem?_cons_succ,
        List.getElem?_cons_zero, List.count_cons]
      by_cases h : a = e
      · simp only [h, Option.some.injEq, decide_eq_true_eq, if_pos rfl,
          List.length_cons, List.length_map, ih, beq_self_eq_true, if_pos]
      · have hbeq : (a == e) = false := by
          simp [h]
        simp only [Option.some.injEq, decide_eq_true_eq, h, if_false,
          List.length_map, ih, hbeq]
        simp

/-- Claim C8: the random unresolved pick returns the not-found signal exactly
when the user's set of records with status other than RESOLVED (paginated
to completeness) is empty; otherwise, for a random index `k` drawn
uniformly below the set's size, it returns the `k`-th member, so every
member is returned for exactly `count` many indices — a uniform choice
with no memory of prior picks. -/
theorem random_unresolved_pick (user : String) (pageSize : Nat)
    (hp : 0 < pageSize) (s : List Record) (k : Nat) :
    let us := (userPartition user s).filter (fun r => !(r.status == "RESOLVED"))
    (get_random_unresolved k user pageSize s = none ↔ us = []) ∧
    (∀ h : k < us.length,
      get_random_unresolved k user pageSize s = some (us.get ⟨k, h⟩)) ∧
    (∀ r, get_random_unresolved k user pageSize s = some r → r ∈ us) ∧
    (∀ e, ((List.range us.length).filter
        (fun j => decide (get_random_unresolved j user pageSize s = some e))).length =
      us.count e) := by
  have hus : list_unresolved_items user pageSize s =
      (userPartition user s).filter (fun r => !(r.status == "RESOLVED")) :=
    list_unresolved_items_eq user pageSize hp s
  set us := (userPartition user s).filter (fun r => !(r.status == "RESOLVED"))
    with hdef
  have hpick : ∀ j, get_random_unresolved j user pageSize s =
      if us.isEmpty then none else us[j % us.length]? := by
    intro j
    rw [get_random_unresolved, hus]
  refine ⟨?_, ?_, ?_, ?_⟩
  · rw [hpick k]
    by_cases he : us.isEmpty = true
    · rw [if_pos he, List.isEmpty_iff.mp he]
      simp
    · have hne : us ≠ [] := fun hnil => he (List.isEmpty_iff.mpr hnil)
      have hlen : 0 < us.length := List.length_pos.mpr hne
      have hin : k % us.length < us.length := Nat.mod_lt _ hlen
      rw [if_neg he, List.getElem?_eq_getElem hin]
      constructor
      · intro hcon
        exact absurd hcon (Option.some_ne_none _)
      · intro hnil
        exact absurd hnil hne
  · intro h
    have hne : us ≠ [] := by
      intro hnil
      rw [hnil] at h
      exact absurd h (by simp)
    have he : us.isEmpty ≠ true := fun hemp => hne (List.isEmpty_iff.mp hemp)
    rw [hpick k, if_neg he, Nat.mod_eq_of_lt h, List.getElem?_eq_getElem h]
    rfl
  · intro r hr
    rw [hpick k] at hr
    by_cases he : us.isEmpty = true
    · rw [if_pos he] at hr
      exact absurd hr (by simp)
    · rw [if_neg he] at hr
      exact List.getElem?_mem hr
  · intro e
    have hcongr : ∀ j ∈ List.range us.length,
        (decide (get_random_unresolved j user pageSize s = some e)) =
        (decide (us[j]? = some e)) := by
      intro j hj
      rw [List.mem_range] at hj
      have hne : us ≠ [] := by
        intro hnil
        rw [hnil] at hj
        exact absurd hj (by simp)
      have he : us.isEmpty ≠ true := fun hemp => hne (List.isEmpty_iff.mp hemp)
      rw [hpick j, if_neg he, Nat.mod_eq_of_lt hj]
    rw [List.filter_congr hcongr]
    exact count_eq_length_index_filter us e

/-- Claim C8 witness: over the two-record store, u1 has one unresolved record;
index 0 picks it, and u2 (whose only record is RESOLVED) gets the
not-found signal. -/
theorem random_unresolved_pick_inst :
    get_random_unresolved 0 "u1" 1 [milkRec, milkRecOther] = some milkRec ∧
    (get_random_unresolved 5 "u2" 1 [milkRec, milkRecOther] = none ↔
      (userPartition "u2" [milkRec, milkRecOther]).filter
        (fun r => !(r.status == "RESOLVED")) = []) :=
  have h1 := (random_unresolved_pick "u1" 1 (by decide) [milkRec, milkRecOther] 0).2.1
    (by decide)
  have h2 := (random_unresolved_pick "u2" 1 (by decide) [milkRec, milkRecOther] 5).1
  ⟨h1.trans (by decide), h2⟩

/-- Claim C7: cross-user isolation.  Every read operation scoped to user `B`
returns only records owned by `B`, and every mutating operation scoped to
`B` (create, resolve, delete — with or without a backing-store fault)
leaves the set of records owned by any other user `A` exactly as it was:
all access is addressed by the composite key (user_id, normalized key) or
a range query on user_id. -/
theorem cross_user_isolation (A B itemText created rd : String) (hAB : A ≠ B)
    (pageSize : Nat) (hp : 0 < pageSize) (k : Nat) (fault : Bool)
    (s : List Record) :
    (∀ r ∈ list_items B pageSize s, r.user_id = B) ∧
    (∀ r ∈ list_unresolved_items B pageSize s, r.user_id = B) ∧
    (∀ r, get_item B itemText s = some r → r.user_id = B) ∧
    (∀ r, get_random_unresolved k B pageSize s = some r → r.user_id = B) ∧
    ((svc_create_item fault B itemText created s).2.filter
        (fun r => r.user_id == A) = s.filter (fun r => r.user_id == A)) ∧
    ((svc_resolve_item fault B itemText rd s).2.filter
        (fun r => r.user_id == A) = s.filter (fun r => r.user_id == A)) ∧
    ((svc_delete_item fault B itemText s).2.filter
        (fun r => r.user_id == A) = s.filter (fun r => r.user_id == A)) := by
  have hBA : (A == B) = false := by
    simp [hAB]
  have hpartition : ∀ r ∈ userPartition B s, r.user_id = B := by
    intro r hr
    have := (List.mem_filter.mp hr).2
    simpa using this
  have hunres : ∀ r ∈ list_unresolved_items B pageSize s, r.user_id = B := by
    intro r hr
    rw [list_unresolved_items_eq B pageSize hp s] at hr
    exact hpartition r (List.mem_filter.mp hr).1
  refine ⟨?_, hunres, ?_, ?_, ?_, ?_, ?_⟩
  · intro r hr
    rw [list_items_eq B pageSize hp s] at hr
    exact hpartition r hr
  · intro r hr
    have hk := List.find?_some hr
    rw [keyMatch, Bool.and_eq_true] at hk
    simpa using hk.1
  · intro r hr
    rw [get_random_unresolved] at hr
    by_cases he : (list_unresolved_items B pageSize s).isEmpty = true
    · rw [if_pos he] at hr
      exact absurd hr (by simp)
    · rw [if_neg he] at hr
      exact hunres r (List.getElem?_mem hr)
  · by_cases hv : (pyStrip itemText == "") = true
    · simp [svc_create_item, hv]
    · by_cases hf : fault
      · simp [svc_create_item, hv, put_item_if_absent, dynamoPutIfAbsent, hf,
          Except.map]
      · by_cases hk : keyPresent B (normalizeItemKey itemText) s = true
        · simp [svc_create_item, hv, put_item_if_absent, dynamoPutIfAbsent, hf,
            hk, Except.map]
        · simp only [svc_create_item, hv, put_item_if_absent, dynamoPutIfAbsent,
            hf, hk, Except.map, Bool.false_eq_true, if_false, if_neg]
          rw [List.filter_append]
          have hBA2 : ¬ (B = A) := fun h => hAB h.symm
          simp [hBA2]
  · by_cases hf : fault
    · simp [svc_resolve_item, mark_resolved, dynamoUpdateResolved, hf]
    · cases hfind : s.find? (keyMatch B (normalizeItemKey itemText)) with
      | none =>
          simp [svc_resolve_item, mark_resolved, dynamoUpdateResolved, hf, hfind]
      | some r0 =>
          simp only [svc_resolve_item, mark_resolved, dynamoUpdateResolved, hf,
            hfind, Bool.false_eq_true, if_false, if_neg]
          rw [List.filter_map]
          have hpred : ((fun r : Record => r.user_id == A) ∘
              resolveUpd B (normalizeItemKey itemText) rd) =
              (fun r : Record => r.user_id == A) := by
            funext x
            simp [Function.comp, user_id_resolveUpd]
          rw [hpred]
          refine List.map_eq_map_iff.mpr ?_ |>.trans (List.map_id _)
          intro x hx
          have hxA : x.user_id = A := by
            have := (List.mem_filter.mp hx).2
            simpa using this
          have hkm : keyMatch B (normalizeItemKey itemText) x = false := by
            rw [keyMatch, hxA]
            simp [hBA]
          rw [resolveUpd, if_neg (by simp [hkm])]
          rfl
  · by_cases hf : fault
    · simp [svc_delete_item, delete_item, dynamoDeleteIfExists, hf]
    · by_cases hk : keyPresent B (normalizeItemKey itemText) s = true
      · simp only [svc_delete_item, delete_item, dynamoDeleteIfExists, hf, hk,
          Bool.false_eq_true, if_false, if_pos, if_neg]
        rw [List.filter_filter]
        apply List.filter_congr
        intro x hx
        by_cases hA : (x.user_id == A) = true
        · have hxA : x.user_id = A := by
            simpa using hA
          have hkm : keyMatch B (normalizeItemKey itemText) x = false := by
            rw [keyMatch, hxA]
            simp [hBA]
          simp [hA, hkm]
        · simp [hA]
      · simp [svc_delete_item, delete_item, dynamoDeleteIfExists, hf, hk]

/-- Claim C7 witness: with u1 and u2 both holding the normalized key "milk",
operations scoped to u2 return only u2's records and do not disturb u1's
record. -/
theorem cross_user_isolation_inst :
    (∀ r ∈ list_items "u2" 1 [milkRec, milkRecOther], r.user_id = "u2") ∧
    (∀ r, get_item "u2" "Milk" [milkRec, milkRecOther] = some r →
      r.user_id = "u2") ∧
    ((svc_delete_item false "u2" "Milk" [milkRec, milkRecOther]).2.filter
        (fun r => r.user_id == "u1") =
      [milkRec, milkRecOther].filter (fun r => r.user_id == "u1")) :=
  have h := cross_user_isolation "u1" "u2" "Milk" "d0" "d9" (by decide) 1
    (by decide) 0 false [milkRec, milkRecOther]
  ⟨h.1, h.2.2.1, h.2.2.2.2.2.2⟩

/-- Every operation either leaves the store unchanged, appends one fresh
NEW record under an absent key, applies the keyed resolve-update
pointwise, or removes the records under one key. -/
theorem applyOp_shape (op : Op) (s : List Record) :
    applyOp op s = s ∨
    (∃ rec : Record, applyOp op s = s ++ [rec] ∧ rec.status = "NEW" ∧
      rec.resolutionDate = none ∧ keyPresent rec.user_id rec.item s = false) ∨
    (∃ u key rd, applyOp op s = s.map (resolveUpd u key rd)) ∨
    (∃ u key, applyOp op s = s.filter (fun r => !(keyMatch u key r))) := by
  cases op with
  | create f u t c =>
      by_cases hv : (pyStrip t == "") = true
      · left
        simp [applyOp, svc_create_item, hv]
      · by_cases hf : f = true
        · left
          simp [applyOp, svc_create_item, hv, put_item_if_absent,
            dynamoPutIfAbsent, hf, Except.map]
        · by_cases hk : keyPresent u (normalizeItemKey t) s = true
          · left
            simp [applyOp, svc_create_item, hv, put_item_if_absent,
              dynamoPutIfAbsent, hf, hk, Except.map]
          · right
            left
            use { user_id := u, item := normalizeItemKey t,
                  display_item := t, status := "NEW", createdDate := c,
                  resolutionDate := none }
            refine ⟨?_, rfl, rfl, ?_⟩
            · simp only [applyOp, svc_create_item, hv, put_item_if_absent,
                dynamoPutIfAbsent, hf, hk, Except.map, Bool.false_eq_true,
                if_false, if_neg]
            · simpa using hk
  | resolve f u t rd =>
      by_cases hf : f = true
      · left
        simp [applyOp, svc_resolve_item, mark_resolved, dynamoUpdateResolved, hf]
      · cases hfind : s.find? (keyMatch u (normalizeItemKey t)) with
        | none =>
            left
            simp [applyOp, svc_resolve_item, mark_resolved,
              dynamoUpdateResolved, hf, hfind]
        | some r0 =>
            right
            right
            left
            refine ⟨u, normalizeItemKey t, rd, ?_⟩
            simp only [applyOp, svc_resolve_item, mark_resolved,
              dynamoUpdateResolved, hf, hfind, Bool.false_eq_true, if_false,
              if_neg]
  | delete f u t =>
      by_cases hf : f = true
      · left
        simp [applyOp, svc_delete_item, delete_item, dynamoDeleteIfExists, hf]
      · by_cases hk : keyPresent u (normalizeItemKey t) s = true
        · right
          right
          right
          refine ⟨u, normalizeItemKey t, ?_⟩
          simp only [applyOp, svc_delete_item, delete_item,
            dynamoDeleteIfExists, hf, hk, Bool.false_eq_true, if_false, if_pos,
            if_neg]
        · left
          simp [applyOp, svc_delete_item, delete_item, dynamoDeleteIfExists,
            hf, hk]

/-- Store well-formedness is preserved by every operation. -/
theorem storeWF_applyOp (op : Op) (s : List Record) (h : StoreWF s) :
    StoreWF (applyOp op s) := by
  rcases applyOp_shape op s with heq | ⟨rec, heq, hnew, hdate, habs⟩ |
    ⟨u, key, rd, heq⟩ | ⟨u, key, heq⟩
  · rw [heq]
    exact h
  · rw [heq]
    constructor
    · intro r hr
      rcases List.mem_append.mp hr with hr | hr
      · exact h.1 r hr
      · rw [List.mem_singleton.mp hr]
        exact Or.inl ⟨hnew, hdate⟩
    · rw [List.pairwise_append]
      refine ⟨h.2, List.pairwise_singleton _ _, ?_⟩
      intro a ha b hb
      rw [List.mem_singleton.mp hb]
      intro ⟨h1, h2⟩
      have := (keyPresent_eq_false_iff _ _ _).mp habs a ha
      rw [keyMatch, h1, h2] at this
      simp at this
  · rw [heq]
    constructor
    · intro r hr
      rcases List.mem_map.mp hr with ⟨x, hx, hfx⟩
      rw [← hfx, resolveUpd]
      by_cases hc : keyMatch u key x = true
      · rw [if_pos hc]
        exact Or.inr ⟨rfl, by simp [resolveRecord]⟩
      · rw [if_neg hc]
        exact h.1 x hx
    · refine h.2.map (resolveUpd u key rd) ?_
      intro a b hR hcon
      apply hR
      rw [user_id_resolveUpd, user_id_resolveUpd, item_resolveUpd,
        item_resolveUpd] at hcon
      exact hcon
  · rw [heq]
    constructor
    · intro r hr
      exact h.1 r (List.mem_filter.mp hr).1
    · exact h.2.sublist (List.filter_sublist s)

/-- Every reachable store is well-formed. -/
theorem reachable_storeWF (s : List Record) (hs : Reachable s) : StoreWF s := by
  obtain ⟨ops, hops⟩ := hs
  rw [← hops]
  have hrun : ∀ s0, StoreWF s0 → StoreWF (runOps ops s0) := by
    clear hops
    induction ops with
    | nil =>
        intro s0 h0
        exact h0
    | cons op rest ih =>
        intro s0 h0
        exact ih (applyOp op s0) (storeWF_applyOp op s0 h0)
  apply hrun
  exact ⟨by intro r hr; exact absurd hr (List.not_mem_nil r), List.Pairwise.nil⟩

/-- Claim C9: in every reachable store, a record's resolved_at (resolutionDate)
is absent exactly when its status is NEW; and under any further operation,
a RESOLVED record that persists under its key remains RESOLVED — the only
status transition is NEW to RESOLVED and no operation un-resolves an
item. -/
theorem item_lifecycle_invariant (s : List Record) (hs : Reachable s) :
    (∀ r ∈ s, r.resolutionDate = none ↔ r.status = "NEW") ∧
    (∀ op : Op, ∀ r ∈ s, ∀ r2 ∈ applyOp op s,
      r.user_id = r2.user_id → r.item = r2.item →
      r.status = "RESOLVED" → r2.status = "RESOLVED") := by
  have hwf := reachable_storeWF s hs
  have huniq : ∀ r ∈ s, ∀ r2 ∈ s,
      r.user_id = r2.user_id → r.item = r2.item → r = r2 := by
    intro r hr r2 hr2 h1 h2
    by_cases he : r = r2
    · exact he
    · have hsym : Symmetric fun a b : Record =>
          ¬(a.user_id = b.user_id ∧ a.item = b.item) := by
        intro a b hab ⟨g1, g2⟩
        exact hab ⟨g1.symm, g2.symm⟩
      exact absurd ⟨h1, h2⟩ (hwf.2.forall hsym hr hr2 he)
  constructor
  · intro r hr
    rcases hwf.1 r hr with ⟨hst, hda⟩ | ⟨hst, hda⟩
    · constructor
      · intro _
        exact hst
      · intro _
        exact hda
    · constructor
      · intro hcon
        exact absurd hcon hda
      · intro hcon
        rw [hst] at hcon
        exact absurd hcon (by decide)
  · intro op r hr r2 hr2 h1 h2 hres
    rcases applyOp_shape op s with heq | ⟨rec, heq, _, _, habs⟩ |
      ⟨u, key, rd, heq⟩ | ⟨u, key, heq⟩
    · rw [heq] at hr2
      rw [← huniq r hr r2 hr2 h1 h2]
      exact hres
    · rw [heq] at hr2
      rcases List.mem_append.mp hr2 with hr2 | hr2
      · rw [← huniq r hr r2 hr2 h1 h2]
        exact hres
      · rw [List.mem_singleton.mp hr2] at h1 h2
        have := (keyPresent_eq_false_iff _ _ _).mp habs r hr
        rw [keyMatch, h1, h2] at this
        simp at this
    · rw [heq] at hr2
      rcases List.mem_map.mp hr2 with ⟨x, hx, hfx⟩
      have hxr : x = r := by
        apply (huniq x hx r hr ?_ ?_).symm.symm
        · rw [h1, ← hfx, user_id_resolveUpd]
        · rw [h2, ← hfx, item_resolveUpd]
      rw [← hfx, hxr, resolveUpd]
      by_cases hc : keyMatch u key r = true
      · rw [if_pos hc]
        rfl
      · rw [if_neg hc]
        exact hres
    · rw [heq] at hr2
      rw [← huniq r hr r2 (List.mem_filter.mp hr2).1 h1 h2]
      exact hres

/-- Claim C9 witness: the store holding the freshly created "Milk" record is
reachable, satisfies the resolved_at/status biconditional, and admits no
un-resolving transition. -/
theorem item_lifecycle_invariant_inst :
    (∀ r ∈ [milkRec], r.resolutionDate = none ↔ r.status = "NEW") ∧
    (∀ op : Op, ∀ r ∈ [milkRec], ∀ r2 ∈ applyOp op [milkRec],
      r.user_id = r2.user_id → r.item = r2.item →
      r.status = "RESOLVED" → r2.status = "RESOLVED") :=
  item_lifecycle_invariant [milkRec]
    ⟨[Op.create false "u1" "Milk" "2026-01-01T00:00:00+00:00"], by decide⟩

end Recallist

namespace Authz

/-- Claim C6: the bearer-token path is tried first — when the token parses with
non-empty `sub` and `iss` claims and the issuer allow-list check passes,
the handler allows with user_id = sub for EVERY content of the API-key
store and even under an API-key store fault (it never consults the
store); when the token path falls through, the decision is exactly the
API-key lookup on the header; and any internal error during that lookup
yields Deny — never a distinct error — whatever the store holds. -/
theorem identity_resolver_priority_and_fail_closed
    (decodeJwt : String → Option JwtPayload) (pool : Option String)
    (auth : String) :
    (∀ t payload sub, parseBearerToken auth = some t →
      decodeJwt t = some payload → payload.sub = some sub → sub ≠ "" →
      truthy payload.iss = true → issuerOk pool payload = true →
      ∀ (keys : List ApiKeyRecord) (fault : Bool),
        handler decodeJwt pool keys fault (some auth) =
          .allow "cognitoUser" sub) ∧
    (∀ (keys : List ApiKeyRecord) (fault : Bool),
      tokenPath decodeJwt pool auth = none →
      handler decodeJwt pool keys fault (some auth) =
        (if auth != "" then
          match apiKeyLookup keys fault auth with
          | some uid => if uid != "" then .allow "apiKeyUser" uid else .deny
          | none => .deny
        else .deny)) ∧
    (∀ keys : List ApiKeyRecord, tokenPath decodeJwt pool auth = none →
      handler decodeJwt pool keys true (some auth) = .deny) := by
  refine ⟨?_, ?_, ?_⟩
  · intro t payload sub hparse hdec hsub hsubne hiss hok keys fault
    have hauth : (auth == "") = false := by
      by_cases h : auth = ""
      · have hemp : parseBearerToken "" = none := by decide
        rw [h, hemp] at hparse
        exact Option.noConfusion hparse
      · simp [h]
    have htp : tokenPath decodeJwt pool auth =
        some (.allow "cognitoUser" sub) := by
      rw [tokenPath, hauth]
      simp only [Bool.false_eq_true, if_false, hparse, hdec]
      rw [hsub]
      have hsubt : truthy (some sub) = true := by
        simp [truthy, hsubne]
      simp [hsubt, hiss, hok]
    simp [handler, htp]
  · intro keys fault htp
    simp only [handler, Option.getD_some, htp]
  · intro keys htp
    simp only [handler, Option.getD_some, htp, apiKeyLookup, if_pos]
    by_cases h : (auth != "") = true <;> simp [h]

/-- Claim C6 witness: a valid token allows as cognitoUser even under an API-key
store fault and with a colliding API-key record present; with an
undecodable token the same faulted lookup denies. -/
theorem identity_resolver_priority_inst :
    handler (fun _ => some ⟨some "user1", some "issA"⟩) none
      [⟨"Bearer tok", some "other"⟩] true (some "Bearer tok") =
      .allow "cognitoUser" "user1" ∧
    handler (fun _ => none) none [⟨"Bearer tok", some "u9"⟩] true
      (some "Bearer tok") = .deny :=
  have h1 := (identity_resolver_priority_and_fail_closed
      (fun _ => some ⟨some "user1", some "issA"⟩) none "Bearer tok").1
    "tok" ⟨some "user1", some "issA"⟩ "user1" (by decide) rfl rfl (by decide)
    (by decide) (by decide) [⟨"Bearer tok", some "other"⟩] true
  have h2 := (identity_resolver_priority_and_fail_closed (fun _ => none) none
      "Bearer tok").2.2 [⟨"Bearer tok", some "u9"⟩] (by decide)
  ⟨h1, h2⟩

/-- Claim C10: when an Authorization header is present but the token path does
not accept it, the API-key fallback looks up the ENTIRE raw header value
(including any "Bearer " prefix) in the key store: an apiKeyUser allow
happens exactly when the store is healthy and the first record whose
api_key equals that full header string carries the non-empty user_id. -/
theorem apikey_fallback_full_header (decodeJwt : String → Option JwtPayload)
    (pool : Option String) (keys : List ApiKeyRecord) (fault : Bool)
    (auth : String) (hauth : auth ≠ "")
    (htok : tokenPath decodeJwt pool auth = none) :
    ∀ uid, (handler decodeJwt pool keys fault (some auth) =
        .allow "apiKeyUser" uid ↔
      (fault = false ∧ uid ≠ "" ∧
        ∃ rec, keys.find? (fun k2 => k2.api_key == auth) = some rec ∧
          rec.user_id = some uid)) := by
  intro uid
  have hauthb : (auth != "") = true := by
    simp [hauth]
  by_cases hf : fault = true
  · have hH : handler decodeJwt pool keys fault (some auth) = .deny := by
      simp only [handler, Option.getD_some, htok, hauthb, if_pos,
        apiKeyLookup, hf, if_true]
    rw [hH]
    constructor
    · intro hcon
      exact absurd hcon (by simp)
    · rintro ⟨hcon, -⟩
      rw [hf] at hcon
      exact absurd hcon (by decide)
  · have hf0 : fault = false := by
      simpa using hf
    cases hfind : keys.find? (fun k2 => k2.api_key == auth) with
    | none =>
        have hH : handler decodeJwt pool keys fault (some auth) = .deny := by
          simp only [handler, Option.getD_some, htok, hauthb, if_pos,
            apiKeyLookup, hf0, Bool.false_eq_true, if_false, hfind]
        rw [hH]
        constructor
        · intro hcon
          exact absurd hcon (by simp)
        · rintro ⟨-, -, rec, hrec, -⟩
          exact Option.noConfusion hrec
    | some rec =>
        cases huser : rec.user_id with
        | none =>
            have hH : handler decodeJwt pool keys fault (some auth) = .deny := by
              simp only [handler, Option.getD_some, htok, hauthb, if_pos,
                apiKeyLookup, hf0, Bool.false_eq_true, if_false, hfind, huser]
            rw [hH]
            constructor
            · intro hcon
              exact absurd hcon (by simp)
            · rintro ⟨-, -, rec2, hrec2, huid2⟩
              have he : rec = rec2 := Option.some.inj hrec2
              rw [← he, huser] at huid2
              exact absurd huid2 (by simp)
        | some uid0 =>
            by_cases hu0 : (uid0 != "") = true
            · have hH : handler decodeJwt pool keys fault (some auth) =
                  .allow "apiKeyUser" uid0 := by
                simp only [handler, Option.getD_some, htok, hauthb, if_pos,
                  apiKeyLookup, hf0, Bool.false_eq_true, if_false, hfind,
                  huser, hu0, if_true]
              rw [hH]
              constructor
              · intro hallow
                rw [AuthResult.allow.injEq] at hallow
                refine ⟨hf0, ?_, rec, rfl, ?_⟩
                · rw [← hallow.2]
                  simpa using hu0
                · rw [huser, hallow.2]
              · rintro ⟨-, -, rec2, hrec2, huid2⟩
                have he : rec = rec2 := Option.some.inj hrec2
                rw [← he, huser] at huid2
                rw [Option.some.inj huid2]
            · have hu00 : uid0 = "" := by
                simpa using hu0
              have hH : handler decodeJwt pool keys fault (some auth) =
                  .deny := by
                simp only [handler, Option.getD_some, htok, hauthb, if_pos,
                  apiKeyLookup, hf0, Bool.false_eq_true, if_false, hfind,
                  huser, hu0]
              rw [hH]
              constructor
              · intro hcon
                exact absurd hcon (by simp)
              · rintro ⟨-, huid, rec2, hrec2, huid2⟩
                have he : rec = rec2 := Option.some.inj hrec2
                rw [← he, huser] at huid2
                have huu : uid = uid0 := (Option.some.inj huid2).symm
                rw [huu, hu00] at huid
                exact absurd rfl huid

/-- Claim C10 witness: with an undecodable token, the header "Bearer tok" is
looked up whole: a store keyed by the full string allows, and the proof
applies the theorem in the forward direction as well to rule out a
stripped-token lookup. -/
theorem apikey_fallback_full_header_inst :
    handler (fun _ => none) none [⟨"Bearer tok", some "u9"⟩] false
      (some "Bearer tok") = .allow "apiKeyUser" "u9" :=
  (apikey_fallback_full_header (fun _ => none) none
      [⟨"Bearer tok", some "u9"⟩] false "Bearer tok" (by decide) (by decide)
      "u9").mpr
    ⟨rfl, by decide, ⟨"Bearer tok", some "u9"⟩, by decide, rfl⟩

end Authz
